import Mathlib

/-!
Shallow embedding of the speaker-embedding inference code of the hisohiso
repository, scripts/convert_silero.py and scripts/download_resemblyzer.py.

Real tensors are modelled as real-valued functions over `Fin`; the batch
dimension (always 1 in the scripts) is dropped.  Machine floats are modelled
as exact reals; the decimal literals `1e-8` and `1e-5` of the scripts become
the rationals `1 / 10 ^ 8` and `1 / 10 ^ 5`.  A PyTorch operation that raises
at runtime (a convolution whose kernel does not fit in its input) is modelled
by an `Option` result, `none` standing for the raised error.
-/

/-- A length-`n` real vector, one row of a PyTorch tensor. -/
abbrev Vec (n : ℕ) : Type := Fin n → ℝ

/-- An `m × n` real matrix. -/
abbrev Mat (m n : ℕ) : Type := Fin m → Fin n → ℝ

/-- Euclidean norm, the `x.norm(dim=1)` / `torch.norm(x, dim=1)` of the
scripts applied to a single row. -/
noncomputable def norm2 {n : ℕ} (v : Vec n) : ℝ :=
  Real.sqrt (∑ i, v i ^ 2)

/-- `torch.nn.ReLU`: pointwise positive part. -/
noncomputable def relu (x : ℝ) : ℝ := max x 0

/-- The epsilon literal `1e-8` of convert_silero.py line 78. -/
noncomputable def epsSilero : ℝ := 1 / 10 ^ 8

/-- The epsilon literal `1e-5` of download_resemblyzer.py line 63. -/
noncomputable def epsResemblyzer : ℝ := 1 / 10 ^ 5

/-- The normalization step both forward passes end with:
`x / (x.norm(dim=1, keepdim=True) + eps)` (convert_silero.py line 78,
download_resemblyzer.py line 63).  The epsilon is added to the norm. -/
noncomputable def l2normalize {n : ℕ} (eps : ℝ) (v : Vec n) : Vec n :=
  fun i => v i / (norm2 v + eps)

/-- Modelled from the spec: the clamped-denominator normalization formula of
section 4.3, `normalize(v) = v / max(‖v‖₂, ε)`.  Written from the spec
wording only, to be compared with `l2normalize`, the formula the code uses. -/
noncomputable def specClampNormalize {n : ℕ} (eps : ℝ) (v : Vec n) : Vec n :=
  fun i => v i / max (norm2 v) eps

/-- Modelled from the spec: the SimilarityScorer of section 4.4,
`score(a, b) = dot(a, b)`.  The scorer itself (VoiceVerifier.swift) is not
among the repository sources; only the normalized embeddings it consumes are
produced here. -/
noncomputable def score {n : ℕ} (a b : Vec n) : ℝ :=
  ∑ i, a i * b i

/-- Output length of `torch.nn.Conv1d` with default padding and dilation:
`(L - k) / s + 1` (floor division), for input length `L`, kernel `k`,
stride `s`. -/
def convOutLen (L k s : ℕ) : ℕ := (L - k) / s + 1

/-- `torch.nn.Conv1d` on a single batch element: channel-summed sliding dot
product plus bias.  The out-of-range guard never fires when the kernel fits
(`k ≤ L`); callers return `none` before applying a convolution whose kernel
does not fit, which is the case where PyTorch raises. -/
noncomputable def conv1d {cin cout k L : ℕ} (s : ℕ)
    (w : Fin cout → Fin cin → Fin k → ℝ) (b : Vec cout)
    (x : Fin cin → Fin L → ℝ) :
    Fin cout → Fin (convOutLen L k s) → ℝ :=
  fun c t => b c + ∑ ci : Fin cin, ∑ j : Fin k,
    w c ci j * (if h : s * t.1 + j.1 < L then x ci ⟨s * t.1 + j.1, h⟩ else 0)

/-- Pointwise ReLU over a channels-by-time feature map. -/
noncomputable def reluM {c L : ℕ} (a : Fin c → Fin L → ℝ) : Fin c → Fin L → ℝ :=
  fun i t => relu (a i t)

/-- `torch.nn.AdaptiveAvgPool1d(1)` followed by `squeeze(-1)`: the mean over
the time axis, per channel. -/
noncomputable def avgPool {c L : ℕ} (a : Fin c → Fin L → ℝ) : Vec c :=
  fun i => (∑ t, a i t) / (L : ℝ)

/-- `torch.nn.Linear`: affine map `W x + b`. -/
noncomputable def linear {m n : ℕ} (w : Mat m n) (b : Vec m) (x : Vec n) : Vec m :=
  fun i => b i + ∑ j, w i j * x j

/-- Weights of the `SimpleSpeakerEmbedding` module of convert_silero.py:
`Conv1d(1, 32, 80, stride 16)`, `Conv1d(32, 64, 3, stride 2)`,
`Conv1d(64, 128, 3, stride 2)`, `Linear(128, 128)`. -/
structure SimpleSpeakerEmbedding where
  conv1w : Fin 32 → Fin 1 → Fin 80 → ℝ
  conv1b : Vec 32
  conv2w : Fin 64 → Fin 32 → Fin 3 → ℝ
  conv2b : Vec 64
  conv3w : Fin 128 → Fin 64 → Fin 3 → ℝ
  conv3b : Vec 128
  fcw : Mat 128 128
  fcb : Vec 128

/-- The condition under which every convolution of the CNN forward pass has a
kernel that fits in its input, so no stage raises. -/
def sileroDefined (n : ℕ) : Prop :=
  80 ≤ n ∧ 3 ≤ convOutLen n 80 16 ∧ 3 ≤ convOutLen (convOutLen n 80 16) 3 2

instance (n : ℕ) : Decidable (sileroDefined n) := by
  unfold sileroDefined; infer_instance

/-- `SimpleSpeakerEmbedding.forward` of convert_silero.py lines 68-79 on a
waveform of arbitrary length `n`: unsqueeze to one channel, three
ReLU-after-convolution stages, adaptive average pool, fully connected layer,
then L2 normalization with epsilon `1e-8` added to the norm.  `none` models
the PyTorch error raised when a convolution kernel does not fit. -/
noncomputable def SimpleSpeakerEmbedding.forward (n : ℕ)
    (W : SimpleSpeakerEmbedding) (x : Vec n) : Option (Vec 128) :=
  if sileroDefined n then
    let x1 : Fin 1 → Fin n → ℝ := fun _ => x
    let a1 := reluM (conv1d 16 W.conv1w W.conv1b x1)
    let a2 := reluM (conv1d 2 W.conv2w W.conv2b a1)
    let a3 := reluM (conv1d 2 W.conv3w W.conv3b a2)
    let y := linear W.fcw W.fcb (avgPool a3)
    some (l2normalize epsSilero y)
  else none

/-- The same pipeline up to and excluding the final normalization line: the
raw embedding of the CNN variant (the Encoder component of the spec, before
the EmbeddingNormalizer step). -/
noncomputable def sileroRaw (n : ℕ)
    (W : SimpleSpeakerEmbedding) (x : Vec n) : Option (Vec 128) :=
  if sileroDefined n then
    let x1 : Fin 1 → Fin n → ℝ := fun _ => x
    let a1 := reluM (conv1d 16 W.conv1w W.conv1b x1)
    let a2 := reluM (conv1d 2 W.conv2w W.conv2b a1)
    let a3 := reluM (conv1d 2 W.conv3w W.conv3b a2)
    some (linear W.fcw W.fcb (avgPool a3))
  else none

/-- Logistic sigmoid, the gate activation of `torch.nn.LSTM`. -/
noncomputable def sigmoid (x : ℝ) : ℝ := 1 / (1 + Real.exp (-x))

/-- Matrix-vector product. -/
noncomputable def matVec {m n : ℕ} (M : Mat m n) (v : Vec n) : Vec m :=
  fun i => ∑ j, M i j * v j

/-- Weights of one layer of `torch.nn.LSTM` with input size `D` and hidden
size `H`.  PyTorch stores the four gate blocks (input, forget, cell, output)
concatenated in `weight_ih_l*`, `weight_hh_l*`, `bias_ih_l*`, `bias_hh_l*`;
here they are the four named blocks `wI..wO` (input-hidden), `uI..uO`
(hidden-hidden), `bI..bO` (input-hidden bias) and `cI..cO` (hidden-hidden
bias). -/
structure LSTMLayerWeights (D H : ℕ) where
  wI : Mat H D
  wF : Mat H D
  wG : Mat H D
  wO : Mat H D
  uI : Mat H H
  uF : Mat H H
  uG : Mat H H
  uO : Mat H H
  bI : Vec H
  bF : Vec H
  bG : Vec H
  bO : Vec H
  cI : Vec H
  cF : Vec H
  cG : Vec H
  cO : Vec H

/-- One step of the standard LSTM cell (the semantics of `torch.nn.LSTM`):
from state `(h, c)` and input `x` to the next `(h, c)`. -/
noncomputable def lstmCell {D H : ℕ} (W : LSTMLayerWeights D H)
    (s : Vec H × Vec H) (x : Vec D) : Vec H × Vec H :=
  let h := s.1
  let c := s.2
  let gi := fun k => sigmoid (matVec W.wI x k + W.bI k + matVec W.uI h k + W.cI k)
  let gf := fun k => sigmoid (matVec W.wF x k + W.bF k + matVec W.uF h k + W.cF k)
  let gg := fun k => Real.tanh (matVec W.wG x k + W.bG k + matVec W.uG h k + W.cG k)
  let go := fun k => sigmoid (matVec W.wO x k + W.bO k + matVec W.uO h k + W.cO k)
  let c2 := fun k => gf k * c k + gi k * gg k
  (fun k => go k * Real.tanh (c2 k), c2)

/-- Run one LSTM layer over a sequence of inputs from state `s`: returns the
sequence of hidden-state outputs (the layer's `output`) and the final
`(h, c)` state. -/
noncomputable def lstmRun {D H : ℕ} (W : LSTMLayerWeights D H) :
    Vec H × Vec H → List (Vec D) → List (Vec H) × (Vec H × Vec H)
  | s, [] => ([], s)
  | s, x :: xs =>
      let s2 := lstmCell W s x
      let r := lstmRun W s2 xs
      (s2.1 :: r.1, r.2)

/-- The all-zero initial LSTM state (PyTorch default when no state is
passed). -/
noncomputable def zeroState (H : ℕ) : Vec H × Vec H :=
  (fun _ => 0, fun _ => 0)

/-- Weights of the `ResemblyzerWrapper` module of download_resemblyzer.py:
the Resemblyzer `VoiceEncoder` LSTM (`nn.LSTM(40, 256, num_layers=3)`,
an external pre-trained artifact) and its `nn.Linear(256, 256)` projection. -/
structure ResemblyzerWrapper where
  l1 : LSTMLayerWeights 40 256
  l2 : LSTMLayerWeights 256 256
  l3 : LSTMLayerWeights 256 256
  linW : Mat 256 256
  linB : Vec 256

/-- The hidden-state sequence produced by the full three-layer LSTM stack on
a mel input: the `out` of `self.lstm(mels)` restricted to the last layer. -/
noncomputable def resemblyzerStackOutputs {T : ℕ} (W : ResemblyzerWrapper)
    (mels : Fin T → Vec 40) : List (Vec 256) :=
  let o1 := (lstmRun W.l1 (zeroState 256) (List.ofFn mels)).1
  let o2 := (lstmRun W.l2 (zeroState 256) o1).1
  (lstmRun W.l3 (zeroState 256) o2).1

/-- `ResemblyzerWrapper.forward` of download_resemblyzer.py lines 56-64 on a
`T × 40` mel input: run the three-layer LSTM, take `hidden[-1]` (the final
hidden state of the last layer), apply the linear projection and ReLU, then
L2 normalize with epsilon `1e-5` added to the norm.  The wrapper performs no
shape check, so `T` is arbitrary. -/
noncomputable def ResemblyzerWrapper.forward {T : ℕ} (W : ResemblyzerWrapper)
    (mels : Fin T → Vec 40) : Vec 256 :=
  let o1 := (lstmRun W.l1 (zeroState 256) (List.ofFn mels)).1
  let o2 := (lstmRun W.l2 (zeroState 256) o1).1
  let h3 := (lstmRun W.l3 (zeroState 256) o2).2.1
  let raw := fun k => relu (linear W.linW W.linB h3 k)
  l2normalize epsResemblyzer raw

/-- The same pipeline up to and excluding the final normalization line: the
raw embedding `embeds_raw = relu(linear(hidden[-1]))` of the recurrent
variant. -/
noncomputable def resemblyzerRaw {T : ℕ} (W : ResemblyzerWrapper)
    (mels : Fin T → Vec 40) : Vec 256 :=
  let o1 := (lstmRun W.l1 (zeroState 256) (List.ofFn mels)).1
  let o2 := (lstmRun W.l2 (zeroState 256) o1).1
  let h3 := (lstmRun W.l3 (zeroState 256) o2).2.1
  fun k => relu (linear W.linW W.linB h3 k)

/-- Modelled from the spec: the CNN-variant pipeline of section 4.2 spelled
out at the fixed 32000-sample input shape, with the concrete intermediate
sizes the three strided convolutions produce (1996, 997 and 498 time steps at
32, 64 and 128 channels), followed by global average pooling over time and
one affine projection to 128 dimensions.  To be compared with `sileroRaw`,
the pipeline the code runs. -/
noncomputable def cnnSpecPipeline (W : SimpleSpeakerEmbedding) (x : Vec 32000) : Vec 128 :=
  let s1 : Fin 32 → Fin 1996 → ℝ := reluM (conv1d 16 W.conv1w W.conv1b (fun _ : Fin 1 => x))
  let s2 : Fin 64 → Fin 997 → ℝ := reluM (conv1d 2 W.conv2w W.conv2b s1)
  let s3 : Fin 128 → Fin 498 → ℝ := reluM (conv1d 2 W.conv3w W.conv3b s2)
  linear W.fcw W.fcb (avgPool s3)

/-- A call to the CNN module modelled with the module state threaded
explicitly: the body of `SimpleSpeakerEmbedding.forward` only reads the
parameter tensors and assigns no attribute, so the post-call state is the
pre-call state. -/
noncomputable def SimpleSpeakerEmbedding.call (n : ℕ)
    (W : SimpleSpeakerEmbedding) (x : Vec n) :
    Option (Vec 128) × SimpleSpeakerEmbedding :=
  (SimpleSpeakerEmbedding.forward n W x, W)

/-- A call to the recurrent module with the module state threaded explicitly:
`ResemblyzerWrapper.forward` only reads `self.lstm` and `self.linear` and
assigns no attribute, so the post-call state is the pre-call state. -/
noncomputable def ResemblyzerWrapper.call {T : ℕ} (W : ResemblyzerWrapper)
    (mels : Fin T → Vec 40) : Vec 256 × ResemblyzerWrapper :=
  (ResemblyzerWrapper.forward W mels, W)

/-- Concrete vector with a single entry 5: a raw embedding of norm exactly 5,
used to separate the additive-epsilon normalization from the clamped one. -/
noncomputable def vFive : Vec 128 := fun i => if i = 0 then 5 else 0

/-- Concrete near-zero raw embedding: a single entry equal to the CNN
epsilon, so its norm is exactly `epsSilero`. -/
noncomputable def vTiny : Vec 128 := fun i => if i = 0 then epsSilero else 0

/-- The normalized embedding the CNN normalization step produces on
`vTiny`. -/
noncomputable def aTiny : Vec 128 := l2normalize epsSilero vTiny

/-- Concrete one-dimensional vector of norm 1. -/
noncomputable def vOne : Vec 1 := fun _ => 1

/-- The all-zero CNN weight assignment. -/
noncomputable def W0cnn : SimpleSpeakerEmbedding :=
  ⟨fun _ _ _ => 0, fun _ => 0, fun _ _ _ => 0, fun _ => 0,
   fun _ _ _ => 0, fun _ => 0, fun _ _ => 0, fun _ => 0⟩

/-- CNN weights that are zero except for the fully connected bias, which is
`vTiny`: on any input, the raw embedding is exactly `vTiny`. -/
noncomputable def Wtiny : SimpleSpeakerEmbedding :=
  ⟨fun _ _ _ => 0, fun _ => 0, fun _ _ _ => 0, fun _ => 0,
   fun _ _ _ => 0, fun _ => 0, fun _ _ => 0, vTiny⟩

/-- The all-zero LSTM layer weight assignment. -/
noncomputable def zeroLSTMLayer (D H : ℕ) : LSTMLayerWeights D H :=
  ⟨fun _ _ => 0, fun _ _ => 0, fun _ _ => 0, fun _ _ => 0,
   fun _ _ => 0, fun _ _ => 0, fun _ _ => 0, fun _ _ => 0,
   fun _ => 0, fun _ => 0, fun _ => 0, fun _ => 0,
   fun _ => 0, fun _ => 0, fun _ => 0, fun _ => 0⟩

/-- The all-zero recurrent-variant weight assignment. -/
noncomputable def W0rec : ResemblyzerWrapper :=
  ⟨zeroLSTMLayer 40 256, zeroLSTMLayer 256 256, zeroLSTMLayer 256 256,
   fun _ _ => 0, fun _ => 0⟩

/-- A concrete one-frame mel input, off the 160-frame shape of the spec. -/
noncomputable def mels1 : Fin 1 → Vec 40 := fun _ _ => 0

lemma epsSilero_pos : 0 < epsSilero := by unfold epsSilero; norm_num

lemma epsResemblyzer_pos : 0 < epsResemblyzer := by unfold epsResemblyzer; norm_num

lemma sumsq_nonneg {n : ℕ} (v : Vec n) : 0 ≤ ∑ i, v i ^ 2 :=
  Finset.sum_nonneg fun _ _ => sq_nonneg _

lemma norm2_nonneg {n : ℕ} (v : Vec n) : 0 ≤ norm2 v :=
  Real.sqrt_nonneg _

lemma denom_pos {n : ℕ} {eps : ℝ} (heps : 0 < eps) (v : Vec n) :
    0 < norm2 v + eps :=
  heps.trans_le (le_add_of_nonneg_left (norm2_nonneg v))

/-- Exact norm of the normalized output: `‖v‖ / (‖v‖ + ε)`. -/
lemma norm2_l2normalize {n : ℕ} {eps : ℝ} (heps : 0 < eps) (v : Vec n) :
    norm2 (l2normalize eps v) = norm2 v / (norm2 v + eps) := by
  have hS : 0 ≤ ∑ i, v i ^ 2 := sumsq_nonneg v
  have hD : 0 < norm2 v + eps := denom_pos heps v
  unfold l2normalize
  unfold norm2 at hD ⊢
  have h1 : (∑ i, (v i / (Real.sqrt (∑ j, v j ^ 2) + eps)) ^ 2)
      = (∑ i, v i ^ 2) / (Real.sqrt (∑ j, v j ^ 2) + eps) ^ 2 := by
    rw [Finset.sum_div]
    exact Finset.sum_congr rfl fun i _ => div_pow _ _ _
  rw [h1, Real.sqrt_div hS, Real.sqrt_sq hD.le]

lemma l2normalize_norm_lt_one {n : ℕ} {eps : ℝ} (heps : 0 < eps) (v : Vec n) :
    norm2 (l2normalize eps v) < 1 := by
  rw [norm2_l2normalize heps]
  exact (div_lt_one (denom_pos heps v)).mpr (lt_add_of_pos_right _ heps)

/-- When the raw norm is at least `1 - ε`, the normalized norm is within `ε`
of 1. -/
lemma l2normalize_norm_close {n : ℕ} {eps : ℝ} (heps : 0 < eps) (v : Vec n)
    (h : 1 - eps ≤ norm2 v) :
    |norm2 (l2normalize eps v) - 1| ≤ eps := by
  have hD : 0 < norm2 v + eps := denom_pos heps v
  have hgap : 1 - norm2 (l2normalize eps v) = eps / (norm2 v + eps) := by
    rw [norm2_l2normalize heps]
    field_simp
  rw [abs_sub_comm, abs_of_nonneg (by rw [hgap]; positivity), hgap]
  have hD1 : 1 ≤ norm2 v + eps := by linarith
  exact div_le_self heps.le hD1

lemma score_self {n : ℕ} (v : Vec n) : score v v = norm2 v ^ 2 := by
  unfold score norm2
  rw [Real.sq_sqrt (sumsq_nonneg v)]
  exact Finset.sum_congr rfl fun i _ => (sq (v i)).symm

lemma norm2_single {n : ℕ} (i0 : Fin n) (a : ℝ) (ha : 0 ≤ a) :
    norm2 (fun i => if i = i0 then a else 0) = a := by
  unfold norm2
  have h1 : (∑ i, (if i = i0 then a else 0) ^ 2)
      = ∑ i, (if i = i0 then a ^ 2 else 0) := by
    refine Finset.sum_congr rfl fun i _ => ?_
    by_cases h : i = i0 <;> simp [h]
  rw [h1, Finset.sum_ite_eq' Finset.univ i0 fun _ => a ^ 2]
  simp [Real.sqrt_sq ha]

lemma norm2_vOne : norm2 vOne = 1 := by
  unfold norm2 vOne
  simp

lemma l2normalize_nonneg {n : ℕ} {eps : ℝ} (heps : 0 < eps) (v : Vec n)
    (hv : ∀ i, 0 ≤ v i) : ∀ i, 0 ≤ l2normalize eps v i := fun i =>
  div_nonneg (hv i) (denom_pos heps v).le

lemma sileroDefined_iff (n : ℕ) : sileroDefined n ↔ 176 ≤ n := by
  unfold sileroDefined convOutLen
  omega

lemma lstmRun_length {D H : ℕ} (W : LSTMLayerWeights D H) :
    ∀ (xs : List (Vec D)) (s : Vec H × Vec H),
      ((lstmRun W s xs).1).length = xs.length := by
  intro xs
  induction xs with
  | nil => intro s; rfl
  | cons x xs ih => intro s; simpa [lstmRun] using ih (lstmCell W s x)

/-- The last element of the output sequence of an LSTM layer on a nonempty
input is the final hidden state of that layer. -/
lemma lstmRun_getLast {D H : ℕ} (W : LSTMLayerWeights D H) :
    ∀ (xs : List (Vec D)) (s : Vec H × Vec H) (x : Vec D),
      ((lstmRun W s (x :: xs)).1).getLast?
        = some ((lstmRun W s (x :: xs)).2.1) := by
  intro xs
  induction xs with
  | nil => intro s x; rfl
  | cons y ys ih =>
      intro s x
      show ((lstmCell W s x).1
          :: (lstmRun W (lstmCell W s x) (y :: ys)).1).getLast?
        = some ((lstmRun W (lstmCell W s x) (y :: ys)).2.1)
      have hcons : (lstmRun W (lstmCell W s x) (y :: ys)).1
          = (lstmCell W (lstmCell W s x) y).1
            :: (lstmRun W (lstmCell W (lstmCell W s x) y) ys).1 := rfl
      rw [hcons, List.getLast?_cons_cons, ← hcons]
      exact ih (lstmCell W s x) y

/-- C1, counterexample: no single epsilon in the range 1e-8 to 1e-5 makes
the normalization the code applies equal to the clamped-denominator formula
`v / max(‖v‖₂, ε)` of the spec.  At the concrete raw embedding `vFive`
(norm 5), the code divides by `5 + 1e-8` while the clamped formula divides
by `5`, whatever epsilon in the range is chosen. -/
theorem normalizer_not_clamped_max :
    ¬ ∃ eps : ℝ, (1 / 10 ^ 8 ≤ eps ∧ eps ≤ 1 / 10 ^ 5) ∧
        (∀ v : Vec 128, l2normalize epsSilero v = specClampNormalize eps v) ∧
        (∀ v : Vec 256, l2normalize epsResemblyzer v = specClampNormalize eps v) := by
  rintro ⟨eps, ⟨hlo, hhi⟩, h128, -⟩
  have h5 : norm2 vFive = 5 := by
    unfold vFive; exact norm2_single 0 5 (by norm_num)
  have heq := congrFun (h128 vFive) 0
  simp only [l2normalize, specClampNormalize] at heq
  rw [h5] at heq
  have hv0 : vFive 0 = 5 := by unfold vFive; simp
  rw [hv0] at heq
  have hmax : max (5 : ℝ) eps = 5 := max_eq_left (by nlinarith)
  rw [hmax] at heq
  unfold epsSilero at heq
  norm_num at heq

/-- C1, amended: for every raw embedding, both forward passes normalize by
dividing each component by `‖v‖₂ + ε` — the epsilon is added to the norm,
not clamped against it — with `ε = 1e-8` in the CNN variant and `ε = 1e-5`
in the recurrent variant (two different epsilons, one per variant, both in
the 1e-8 to 1e-5 range). -/
theorem normalizer_additive_eps :
    ∀ (n : ℕ) (W : SimpleSpeakerEmbedding) (x : Vec n) (T : ℕ)
      (W2 : ResemblyzerWrapper) (mels : Fin T → Vec 40),
      SimpleSpeakerEmbedding.forward n W x
        = Option.map (fun v i => v i / (norm2 v + epsSilero)) (sileroRaw n W x) ∧
      ResemblyzerWrapper.forward W2 mels
        = fun i => resemblyzerRaw W2 mels i
            / (norm2 (resemblyzerRaw W2 mels) + epsResemblyzer) := by
  intro n W x T W2 mels
  constructor
  · unfold SimpleSpeakerEmbedding.forward sileroRaw
    by_cases h : sileroDefined n
    · rw [if_pos h, if_pos h]; rfl
    · rw [if_neg h, if_neg h]; rfl
  · rfl

/-- C2, counterexample: the nonzero raw embedding `vTiny` (norm `1e-8`)
normalizes to a vector of norm exactly `1/2`, which is not within `ε` of
1. -/
theorem normalized_norm_not_within_eps :
    vTiny ≠ (fun _ => 0) ∧
    ¬ (|norm2 (l2normalize epsSilero vTiny) - 1| ≤ epsSilero) := by
  have ht : norm2 vTiny = epsSilero := by
    unfold vTiny; exact norm2_single 0 epsSilero epsSilero_pos.le
  constructor
  · intro hc
    have h0 := congrFun hc 0
    unfold vTiny at h0
    simp at h0
    exact absurd h0 epsSilero_pos.ne'
  · rw [norm2_l2normalize epsSilero_pos, ht]
    have hhalf : epsSilero / (epsSilero + epsSilero) = 1 / 2 := by
      unfold epsSilero; norm_num
    rw [hhalf, abs_sub_comm,
      show (1 : ℝ) - 1 / 2 = 1 / 2 by norm_num,
      abs_of_nonneg (by norm_num : (0 : ℝ) ≤ 1 / 2)]
    unfold epsSilero
    norm_num

/-- C2, amended: the normalized output has norm exactly
`‖v‖₂ / (‖v‖₂ + ε)`, which is strictly below 1 for every raw embedding
(bounded, with a strictly positive denominator), and is within `ε` of 1
whenever the raw norm is at least `1 - ε`; near-zero raw embeddings (norm
below `1 - ε`) land farther from 1. -/
theorem normalized_norm_bounds (n : ℕ) (v : Vec n) :
    norm2 (l2normalize epsSilero v) = norm2 v / (norm2 v + epsSilero) ∧
    norm2 (l2normalize epsResemblyzer v) = norm2 v / (norm2 v + epsResemblyzer) ∧
    norm2 (l2normalize epsSilero v) < 1 ∧
    norm2 (l2normalize epsResemblyzer v) < 1 ∧
    (1 - epsSilero ≤ norm2 v →
      |norm2 (l2normalize epsSilero v) - 1| ≤ epsSilero) ∧
    (1 - epsResemblyzer ≤ norm2 v →
      |norm2 (l2normalize epsResemblyzer v) - 1| ≤ epsResemblyzer) :=
  ⟨norm2_l2normalize epsSilero_pos v,
   norm2_l2normalize epsResemblyzer_pos v,
   l2normalize_norm_lt_one epsSilero_pos v,
   l2normalize_norm_lt_one epsResemblyzer_pos v,
   l2normalize_norm_close epsSilero_pos v,
   l2normalize_norm_close epsResemblyzer_pos v⟩

/-- Witness for the amended C2 at the concrete unit-norm raw embedding
`vOne`. -/
theorem normalized_norm_bounds_witness :
    (1 - epsSilero ≤ norm2 vOne) ∧
    |norm2 (l2normalize epsSilero vOne) - 1| ≤ epsSilero := by
  have h : 1 - epsSilero ≤ norm2 vOne := by
    rw [norm2_vOne]; unfold epsSilero; norm_num
  exact ⟨h, (normalized_norm_bounds 1 vOne).2.2.2.2.1 h⟩

lemma self_score_bound {n : ℕ} {eps : ℝ} (heps : 0 < eps) (v : Vec n)
    (h : 1 ≤ norm2 v) :
    score (l2normalize eps v) (l2normalize eps v) ≤ 1 ∧
    |score (l2normalize eps v) (l2normalize eps v) - 1| ≤ 2 * eps := by
  have hD : 0 < norm2 v + eps := denom_pos heps v
  rw [score_self, norm2_l2normalize heps]
  set x := norm2 v / (norm2 v + eps) with hx
  have hx0 : 0 ≤ x := div_nonneg (norm2_nonneg v) hD.le
  have hx1 : x < 1 := (div_lt_one hD).mpr (lt_add_of_pos_right _ heps)
  have hgap : 1 - x ≤ eps := by
    have hD1 : 1 ≤ norm2 v + eps := by linarith
    have : 1 - x = eps / (norm2 v + eps) := by rw [hx]; field_simp
    rw [this]
    exact div_le_self heps.le hD1
  have hsq : x ^ 2 ≤ 1 := by nlinarith
  refine ⟨hsq, ?_⟩
  rw [abs_sub_comm, abs_of_nonneg (by linarith)]
  nlinarith

/-- C3, counterexample: the CNN forward pass at weights `Wtiny` produces the
normalized embedding `aTiny` (a genuine output of the normalization step),
whose similarity score with itself is exactly `1/4`, far outside any
floating-point tolerance of 1. -/
theorem self_similarity_far_from_one :
    SimpleSpeakerEmbedding.forward 32000 Wtiny (fun _ => 0) = some aTiny ∧
    ¬ (|score aTiny aTiny - 1| ≤ 2 * epsSilero) := by
  have ht : norm2 vTiny = epsSilero := by
    unfold vTiny; exact norm2_single 0 epsSilero epsSilero_pos.le
  have hlin : ∀ p : Vec 128, linear Wtiny.fcw Wtiny.fcb p = vTiny := by
    intro p
    funext i
    simp [linear, Wtiny]
  constructor
  · simp only [SimpleSpeakerEmbedding.forward]
    rw [if_pos (by decide), hlin]
    rfl
  · have h1 : score aTiny aTiny = (1 / 2) ^ 2 := by
      unfold aTiny
      rw [score_self, norm2_l2normalize epsSilero_pos, ht]
      unfold epsSilero
      norm_num
    rw [h1, abs_sub_comm,
      show (1 : ℝ) - (1 / 2) ^ 2 = 3 / 4 by norm_num,
      abs_of_nonneg (by norm_num : (0 : ℝ) ≤ 3 / 4)]
    unfold epsSilero
    norm_num

/-- C3, amended: for a raw embedding of norm at least 1 (in particular, any
raw embedding whose normalized image the spec intends to compare), the
similarity score of the normalized embedding with itself is at most 1 and is
within `2ε` of 1, for both variants' epsilons; normalized images of near-zero
raw embeddings score farther from 1. -/
theorem self_similarity_near_one (n : ℕ) (v : Vec n) (h : 1 ≤ norm2 v) :
    score (l2normalize epsSilero v) (l2normalize epsSilero v) ≤ 1 ∧
    |score (l2normalize epsSilero v) (l2normalize epsSilero v) - 1|
      ≤ 2 * epsSilero ∧
    score (l2normalize epsResemblyzer v) (l2normalize epsResemblyzer v) ≤ 1 ∧
    |score (l2normalize epsResemblyzer v) (l2normalize epsResemblyzer v) - 1|
      ≤ 2 * epsResemblyzer := by
  obtain ⟨a1, a2⟩ := self_score_bound epsSilero_pos v h
  obtain ⟨b1, b2⟩ := self_score_bound epsResemblyzer_pos v h
  exact ⟨a1, a2, b1, b2⟩

/-- Witness for the amended C3 at the concrete unit-norm raw embedding
`vOne`. -/
theorem self_similarity_near_one_witness :
    (1 ≤ norm2 vOne) ∧
    |score (l2normalize epsSilero vOne) (l2normalize epsSilero vOne) - 1|
      ≤ 2 * epsSilero := by
  have h : 1 ≤ norm2 vOne := by rw [norm2_vOne]
  exact ⟨h, (self_similarity_near_one 1 vOne h).2.1⟩

/-- C4: on every 32000-sample waveform the CNN forward pass succeeds and
computes exactly the spec pipeline — three strided convolution stages each
followed by a ReLU (producing 32 × 1996, 64 × 997 and 128 × 498 feature
maps), global average pooling over time, one affine projection to 128
dimensions — followed by the separately specified normalization step. -/
theorem cnn_forward_structure (W : SimpleSpeakerEmbedding) (x : Vec 32000) :
    sileroRaw 32000 W x = some (cnnSpecPipeline W x) ∧
    SimpleSpeakerEmbedding.forward 32000 W x
      = some (l2normalize epsSilero (cnnSpecPipeline W x)) := by
  constructor
  · unfold sileroRaw
    rw [if_pos (by decide)]
    rfl
  · unfold SimpleSpeakerEmbedding.forward
    rw [if_pos (by decide)]
    rfl

/-- C5: on every 160-frame by 40-channel mel input the recurrent forward
pass computes exactly: the three-layer LSTM over the sequence, the selection
of the final layer's last hidden state (which equals the last element of the
final layer's output sequence), one affine projection followed by a ReLU to
256 dimensions, and then the separately specified normalization step. -/
theorem recurrent_forward_structure (W : ResemblyzerWrapper)
    (mels : Fin 160 → Vec 40) :
    ∃ h : Vec 256,
      (resemblyzerStackOutputs W mels).getLast? = some h ∧
      resemblyzerRaw W mels = (fun k => relu (linear W.linW W.linB h k)) ∧
      ResemblyzerWrapper.forward W mels
        = l2normalize epsResemblyzer (resemblyzerRaw W mels) := by
  have hlen2 : ((lstmRun W.l2 (zeroState 256)
      ((lstmRun W.l1 (zeroState 256) (List.ofFn mels)).1)).1).length = 160 := by
    rw [lstmRun_length, lstmRun_length, List.length_ofFn]
  have hne : (lstmRun W.l2 (zeroState 256)
      ((lstmRun W.l1 (zeroState 256) (List.ofFn mels)).1)).1 ≠ [] := by
    intro hc
    rw [hc] at hlen2
    exact absurd hlen2 (by norm_num)
  obtain ⟨y, ys, hys⟩ := List.exists_cons_of_ne_nil hne
  refine ⟨(lstmRun W.l3 (zeroState 256)
      ((lstmRun W.l2 (zeroState 256)
        ((lstmRun W.l1 (zeroState 256) (List.ofFn mels)).1)).1)).2.1,
    ?_, rfl, rfl⟩
  simp only [resemblyzerStackOutputs]
  rw [hys]
  exact lstmRun_getLast W.l3 ys (zeroState 256) y

/-- C6, counterexample: a 176-sample input frame does not match the CNN
variant's required 32000-sample shape, yet the forward pass returns a value
instead of failing: there is no shape check. -/
theorem cnn_forward_succeeds_off_spec_shape :
    (SimpleSpeakerEmbedding.forward 176 W0cnn (fun _ => 0)).isSome = true := by
  unfold SimpleSpeakerEmbedding.forward
  rw [if_pos (by decide)]
  rfl

/-- C6, amended: neither forward pass performs a shape check.  The CNN
forward fails (a convolution kernel cannot fit, modelled as `none`) exactly
when the input is shorter than 176 samples — never because the length
differs from 32000 — and the recurrent forward returns a well-defined
normalized embedding (norm below 1) for a mel sequence of any frame count,
not only 160.  The fixed shapes are enforced only by the exported model's
declared input shape, outside these forward passes. -/
theorem encode_no_shape_check :
    ∀ (n : ℕ) (W : SimpleSpeakerEmbedding) (x : Vec n) (T : ℕ)
      (W2 : ResemblyzerWrapper) (mels : Fin T → Vec 40),
      (SimpleSpeakerEmbedding.forward n W x = none ↔ n < 176) ∧
      norm2 (ResemblyzerWrapper.forward W2 mels) < 1 := by
  intro n W x T W2 mels
  constructor
  · unfold SimpleSpeakerEmbedding.forward
    by_cases h : sileroDefined n
    · rw [if_pos h]
      rw [sileroDefined_iff] at h
      simp
      omega
    · rw [if_neg h]
      rw [sileroDefined_iff] at h
      simp
      omega
  · exact l2normalize_norm_lt_one epsResemblyzer_pos (resemblyzerRaw W2 mels)

/-- Witness for the amended C6 at concrete inputs: a 100-sample frame on the
CNN variant and a one-frame mel sequence on the recurrent variant. -/
theorem encode_no_shape_check_witness :
    (SimpleSpeakerEmbedding.forward 100 W0cnn (fun _ => 0) = none ↔ 100 < 176) ∧
    norm2 (ResemblyzerWrapper.forward W0rec mels1) < 1 :=
  encode_no_shape_check 100 W0cnn (fun _ => 0) 1 W0rec mels1

/-- C7: both forward passes are deterministic and stateless.  With the
module state threaded explicitly through `call` (the bodies read the
parameter tensors and assign nothing), a call leaves the weights unchanged,
and a second call on the post-call state with the same input produces the
same output as the first. -/
theorem forward_deterministic_stateless :
    ∀ (n : ℕ) (W : SimpleSpeakerEmbedding) (x : Vec n) (T : ℕ)
      (W2 : ResemblyzerWrapper) (mels : Fin T → Vec 40),
      (SimpleSpeakerEmbedding.call n W x).2 = W ∧
      (SimpleSpeakerEmbedding.call n ((SimpleSpeakerEmbedding.call n W x).2) x).1
        = (SimpleSpeakerEmbedding.call n W x).1 ∧
      (ResemblyzerWrapper.call W2 mels).2 = W2 ∧
      (ResemblyzerWrapper.call ((ResemblyzerWrapper.call W2 mels).2) mels).1
        = (ResemblyzerWrapper.call W2 mels).1 :=
  fun _ _ _ _ _ _ => ⟨rfl, rfl, rfl, rfl⟩

/-- C8: normalization is total.  For every input vector, including the zero
vector and near-zero vectors, the denominator `‖v‖₂ + ε` is strictly
positive for both variants' epsilons, the result is the stated quotient, and
its norm is bounded (below 1): no error case and no unguarded division. -/
theorem l2normalize_total_pos_denom :
    ∀ (n : ℕ) (v : Vec n),
      (0 < norm2 v + epsSilero ∧ 0 < norm2 v + epsResemblyzer) ∧
      l2normalize epsSilero v = (fun i => v i / (norm2 v + epsSilero)) ∧
      l2normalize epsResemblyzer v
        = (fun i => v i / (norm2 v + epsResemblyzer)) ∧
      norm2 (l2normalize epsSilero v) < 1 ∧
      norm2 (l2normalize epsResemblyzer v) < 1 :=
  fun _ v =>
    ⟨⟨denom_pos epsSilero_pos v, denom_pos epsResemblyzer_pos v⟩,
     rfl, rfl,
     l2normalize_norm_lt_one epsSilero_pos v,
     l2normalize_norm_lt_one epsResemblyzer_pos v⟩

/-- C9: every component of a recurrent-variant output embedding is
non-negative — the 256-dimensional projection passes through a ReLU before
normalization, and dividing by the positive denominator preserves signs — so
the similarity score of any two recurrent-variant embeddings is at least
0. -/
theorem recurrent_embedding_nonneg :
    ∀ (W W2 : ResemblyzerWrapper) (mels mels2 : Fin 160 → Vec 40),
      (∀ i, 0 ≤ ResemblyzerWrapper.forward W mels i) ∧
      0 ≤ score (ResemblyzerWrapper.forward W mels)
            (ResemblyzerWrapper.forward W2 mels2) := by
  have key : ∀ (W : ResemblyzerWrapper) (mels : Fin 160 → Vec 40) (i : Fin 256),
      0 ≤ ResemblyzerWrapper.forward W mels i := by
    intro W mels i
    have hraw : ∀ k, 0 ≤ resemblyzerRaw W mels k := fun k => le_max_right _ 0
    exact l2normalize_nonneg epsResemblyzer_pos (resemblyzerRaw W mels) hraw i
  intro W W2 mels mels2
  refine ⟨key W mels, Finset.sum_nonneg fun i _ => ?_⟩
  exact mul_nonneg (key W mels i) (key W2 mels2 i)

/-- C10: the CNN forward pass enforces no fixed input length — it returns a
128-dimensional embedding exactly when the waveform has at least 176 samples
(the minimum the three strided convolutions require), so inputs of length
other than 32000 are accepted rather than rejected. -/
theorem cnn_forward_isSome_iff :
    ∀ (n : ℕ) (W : SimpleSpeakerEmbedding) (x : Vec n),
      (SimpleSpeakerEmbedding.forward n W x).isSome = true ↔ 176 ≤ n := by
  intro n W x
  unfold SimpleSpeakerEmbedding.forward
  by_cases h : sileroDefined n
  · rw [if_pos h]
    rw [sileroDefined_iff] at h
    simp [h]
  · rw [if_neg h]
    rw [sileroDefined_iff] at h
    simp [h]

/-- Witness for C10 at the concrete 176-sample all-zero input. -/
theorem cnn_forward_isSome_iff_witness :
    (SimpleSpeakerEmbedding.forward 176 W0cnn (fun _ => 0)).isSome = true
      ↔ 176 ≤ 176 :=
  cnn_forward_isSome_iff 176 W0cnn (fun _ => 0)
